import Mathlib

/-!
Verification of `lib/streamlit/runtime/caching/legacy_cache_api.py` (the
deprecated `st.cache` façade) and of the memoizing cache engine it delegates
to, against the natural-language specification.

Part 1 embeds the façade itself, translated line by line from the Python
source of `cache`.  Part 2 models the delegated cache engine (store, expiry,
persistence, single-flight), whose code lives outside this file's source
tree, from the specification's contracts.
-/

namespace LegacyCacheApi

/-- Stand-in for Python's `HashFuncsDict` argument: an opaque token.  The
façade never inspects it, it is only forwarded, so a token suffices. -/
abbrev HashFuncs := Nat

/-- Stand-in for the wrapped callable `func` (which may be `None` in the
decorator-factory form): an opaque identity token. -/
abbrev FuncId := Nat

/-- The argument tuple accepted by the façade entry point `cache`
(`legacy_cache_api.py`, lines 62-70), with Python defaults recorded
separately below. -/
structure CacheArgs where
  func : Option FuncId
  persist : Bool
  allow_output_mutation : Bool
  show_spinner : Bool
  suppress_st_warning : Bool
  hash_funcs : Option HashFuncs
  max_entries : Option Nat
  ttl : Option Nat
  deriving Repr, DecidableEq

/-- A call made by the façade to one of its two successor mechanisms,
recording exactly the arguments the Python source passes:
`st.cache_resource(func, show_spinner=..., hash_funcs=..., max_entries=...,
ttl=...)` on the `allow_output_mutation` branch (lines 169-175), and
`st.cache_data(func, persist=..., show_spinner=..., hash_funcs=...,
max_entries=..., ttl=...)` on the other branch (lines 177-184). -/
inductive SuccessorCall where
  | cacheResource (func : Option FuncId) (show_spinner : Bool)
      (hash_funcs : Option HashFuncs) (max_entries : Option Nat)
      (ttl : Option Nat)
  | cacheData (func : Option FuncId) (persist : Bool) (show_spinner : Bool)
      (hash_funcs : Option HashFuncs) (max_entries : Option Nat)
      (ttl : Option Nat)
  deriving Repr, DecidableEq

/-- The deprecation message emitted by the façade (lines 162-166); its exact
wording is irrelevant to the claims, only its emission and position are. -/
def deprecationMessage : String :=
  "st.cache is deprecated and will be removed soon. Please use one of " ++
  "Streamlit's new caching commands, st.cache_data or st.cache_resource."

/-- Observable events of one façade invocation, in order. -/
inductive FacadeEvent where
  | deprecationWarning (msg : String)
  | callSuccessor (c : SuccessorCall)
  deriving Repr, DecidableEq

/-- The dispatch decision of `cache` (lines 168-184): `allow_output_mutation`
selects `st.cache_resource`, otherwise `st.cache_data`; each branch forwards
the arguments listed in the source. -/
def cacheDispatch (a : CacheArgs) : SuccessorCall :=
  if a.allow_output_mutation then
    SuccessorCall.cacheResource a.func a.show_spinner a.hash_funcs
      a.max_entries a.ttl
  else
    SuccessorCall.cacheData a.func a.persist a.show_spinner a.hash_funcs
      a.max_entries a.ttl

/-- The full observable behavior of one invocation of `cache` (lines
162-184): first `show_deprecation_warning(...)`, then exactly one successor
call, whose return value is the façade's return value. -/
def cache (a : CacheArgs) : List FacadeEvent × SuccessorCall :=
  ([FacadeEvent.deprecationWarning deprecationMessage,
    FacadeEvent.callSuccessor (cacheDispatch a)],
   cacheDispatch a)

/-- `true` iff the successor call targets `st.cache_resource`. -/
def SuccessorCall.isResource : SuccessorCall → Bool
  | .cacheResource .. => true
  | .cacheData .. => false

/-- `true` iff the successor call targets `st.cache_data`. -/
def SuccessorCall.isData : SuccessorCall → Bool
  | .cacheResource .. => false
  | .cacheData .. => true

/-- The `func` argument the successor receives. -/
def SuccessorCall.funcArg : SuccessorCall → Option FuncId
  | .cacheResource f _ _ _ _ => f
  | .cacheData f _ _ _ _ _ => f

/-- The `show_spinner` argument the successor receives. -/
def SuccessorCall.spinnerArg : SuccessorCall → Bool
  | .cacheResource _ s _ _ _ => s
  | .cacheData _ _ s _ _ _ => s

/-- The `hash_funcs` argument the successor receives. -/
def SuccessorCall.hashFuncsArg : SuccessorCall → Option HashFuncs
  | .cacheResource _ _ h _ _ => h
  | .cacheData _ _ _ h _ _ => h

/-- The `max_entries` argument the successor receives. -/
def SuccessorCall.maxEntriesArg : SuccessorCall → Option Nat
  | .cacheResource _ _ _ m _ => m
  | .cacheData _ _ _ _ m _ => m

/-- The `ttl` argument the successor receives. -/
def SuccessorCall.ttlArg : SuccessorCall → Option Nat
  | .cacheResource _ _ _ _ t => t
  | .cacheData _ _ _ _ _ t => t

/-- The `persist` argument the successor receives, when it receives one:
`st.cache_data` is passed `persist`, `st.cache_resource` is not. -/
def SuccessorCall.persistArg : SuccessorCall → Option Bool
  | .cacheResource _ _ _ _ _ => none
  | .cacheData _ p _ _ _ _ => some p

/-- Replace only the `suppress_st_warning` field. -/
def setSuppress (a : CacheArgs) (s : Bool) : CacheArgs :=
  { a with suppress_st_warning := s }

/-- Replace only the `persist` field. -/
def setPersist (a : CacheArgs) (p : Bool) : CacheArgs :=
  { a with persist := p }

end LegacyCacheApi

namespace LegacyCacheApi

/-- C1: dispatch is decided solely by `allow_output_mutation`: when true the
call goes to `st.cache_resource`, when false to `st.cache_data`, and exactly
one successor is invoked. -/
theorem cache_dispatch_decided_by_flag (a : CacheArgs) :
    (cacheDispatch a).isResource = a.allow_output_mutation ∧
    (cacheDispatch a).isData = !a.allow_output_mutation ∧
    (cache a).1.filterMap
        (fun e => match e with
          | FacadeEvent.callSuccessor c => some c
          | _ => none) = [cacheDispatch a] := by
  cases h : a.allow_output_mutation <;>
    simp [cacheDispatch, cache, SuccessorCall.isResource, SuccessorCall.isData, h]

/-- A concrete argument tuple with `allow_output_mutation = true` and
`persist = true`, used to evaluate the façade on the `cache_resource`
branch. -/
def argsAOM : CacheArgs :=
  { func := some 7
    persist := true
    allow_output_mutation := true
    show_spinner := true
    suppress_st_warning := false
    hash_funcs := none
    max_entries := none
    ttl := none }

/-- C2 counterexample: with `allow_output_mutation = true` and
`persist = true`, the selected successor (`st.cache_resource`) is not passed
`persist` at all, so the façade does not forward all five of `persist`,
`show_spinner`, `hash_funcs`, `max_entries`, `ttl` on this branch. -/
theorem cache_not_all_five_forwarded :
    ¬ (cacheDispatch argsAOM).persistArg = some argsAOM.persist := by
  decide

/-- C2 (amended): whichever branch `allow_output_mutation` selects, the
façade forwards `func`, `show_spinner`, `hash_funcs`, `max_entries` and
`ttl` unchanged to the selected successor; `persist` is forwarded unchanged
only on the `st.cache_data` branch and is not passed to
`st.cache_resource`. -/
theorem cache_forwards_args (a : CacheArgs) :
    (cacheDispatch a).funcArg = a.func ∧
    (cacheDispatch a).spinnerArg = a.show_spinner ∧
    (cacheDispatch a).hashFuncsArg = a.hash_funcs ∧
    (cacheDispatch a).maxEntriesArg = a.max_entries ∧
    (cacheDispatch a).ttlArg = a.ttl ∧
    (cacheDispatch a).persistArg =
      (if a.allow_output_mutation then none else some a.persist) := by
  cases h : a.allow_output_mutation <;>
    simp [cacheDispatch, h, SuccessorCall.funcArg, SuccessorCall.spinnerArg,
      SuccessorCall.hashFuncsArg, SuccessorCall.maxEntriesArg,
      SuccessorCall.ttlArg, SuccessorCall.persistArg]

/-- C3: every invocation of `cache` — in particular both the
direct-decoration form (`func = some f`) and the decorator-factory form
(`func = none`) — emits the deprecation notice as its first event, strictly
before the single successor call. -/
theorem cache_always_warns_first (a : CacheArgs) :
    (cache a).1 =
      [FacadeEvent.deprecationWarning deprecationMessage,
       FacadeEvent.callSuccessor (cacheDispatch a)] ∧
    ((a.func = none ∨ ∃ f, a.func = some f) ∧
      (cache a).1.head? =
        some (FacadeEvent.deprecationWarning deprecationMessage)) := by
  refine ⟨rfl, ⟨?_, rfl⟩⟩
  cases h : a.func with
  | none => exact Or.inl rfl
  | some f => exact Or.inr ⟨f, rfl⟩

/-- C9: the façade's observable behavior (its event trace, the successor
call it makes and the value it returns) does not depend on
`suppress_st_warning`. -/
theorem cache_ignores_suppress_flag (a : CacheArgs) (s₁ s₂ : Bool) :
    cache (setSuppress a s₁) = cache (setSuppress a s₂) := by
  simp [cache, cacheDispatch, setSuppress]

/-- C10: when `allow_output_mutation = true`, the `persist` argument has no
effect: the façade makes the identical `st.cache_resource` call (which is
not passed `persist`) and returns the same value; `persist` reaches a
successor only on the `allow_output_mutation = false` branch. -/
theorem cache_persist_inert_when_mutable (a : CacheArgs) (p₁ p₂ : Bool)
    (h : a.allow_output_mutation = true) :
    cache (setPersist a p₁) = cache (setPersist a p₂) ∧
    (cacheDispatch (setPersist a p₁)).isResource = true ∧
    (cacheDispatch (setPersist a p₁)).persistArg = none ∧
    (∀ b : CacheArgs, b.allow_output_mutation = false →
      (cacheDispatch b).persistArg = some b.persist) := by
  refine ⟨?_, ?_, ?_, ?_⟩
  · simp [cache, cacheDispatch, setPersist, h]
  · simp [cacheDispatch, setPersist, h, SuccessorCall.isResource]
  · simp [cacheDispatch, setPersist, h, SuccessorCall.persistArg]
  · intro b hb
    simp [cacheDispatch, hb, SuccessorCall.persistArg]

/-- Witness for C10 at a concrete argument tuple. -/
theorem cache_persist_inert_when_mutable_witness :
    cache (setPersist argsAOM true) = cache (setPersist argsAOM false) ∧
    (cacheDispatch (setPersist argsAOM true)).isResource = true ∧
    (cacheDispatch (setPersist argsAOM true)).persistArg = none ∧
    (∀ b : CacheArgs, b.allow_output_mutation = false →
      (cacheDispatch b).persistArg = some b.persist) :=
  cache_persist_inert_when_mutable argsAOM true false rfl

end LegacyCacheApi

namespace CacheEngine

/-- Modelled from the spec: the memoizing cache engine behind `st.cache_data`
and `st.cache_resource` is not part of this source tree, so its data model is
taken from §3.  A `CacheEntry` carries its `CallKey`, the cached value, the
creation timestamp and the last-access timestamp. -/
structure CacheEntry (V : Type) where
  key : Nat
  value : V
  created_at : Nat
  last_touch : Nat
  deriving DecidableEq

/-- Modelled from the spec: the Cache Store (§4.2) is a bounded mapping from
`CallKey` to entry; represented as a list kept in insertion order, oldest
entry first, so the head is the FIFO-eviction victim. -/
abbrev Store (V : Type) := List (CacheEntry V)

/-- Store probe: the (unique) entry for `key`, if present. -/
def lookup {V : Type} (key : Nat) (s : Store V) : Option (CacheEntry V) :=
  s.find? (fun e => e.key == key)

/-- Remove every entry for `key` (at most one under the store invariant). -/
def removeKey {V : Type} (key : Nat) (s : Store V) : Store V :=
  s.filter (fun e => e.key != key)

/-- Update the last-access timestamp of the entry for `key`. -/
def touch {V : Type} (key : Nat) (now : Nat) (s : Store V) : Store V :=
  s.map (fun e => if e.key == key then { e with last_touch := now } else e)

/-- Modelled from the spec: `put` of a ready-made entry into the Store
(§4.2).  A `put` on an existing key replaces that entry (invariant: at most
one live entry per CallKey); when `|entries| == max_entries` and the key is
new, the entry with the oldest `created_at` — the head, in insertion order —
is removed before insertion (FIFO eviction, not access-recency-based). -/
def putEntry {V : Type} (maxEntries : Option Nat) (e : CacheEntry V)
    (s : Store V) : Store V :=
  if (lookup e.key s).isSome then
    removeKey e.key s ++ [e]
  else
    match maxEntries with
    | some m => if s.length == m then s.drop 1 ++ [e] else s ++ [e]
    | none => s ++ [e]

/-- Modelled from the spec: `put(key, value)` at time `now` (§4.2, §3): the
fresh entry records `now` as both `created_at` and `last_touch`. -/
def put {V : Type} (maxEntries : Option Nat) (key : Nat) (v : V) (now : Nat)
    (s : Store V) : Store V :=
  putEntry maxEntries ⟨key, v, now, now⟩ s

/-- Modelled from the spec: the Expiry Manager contract (§4.3):
`is_expired(entry, ttl, now)` is true iff `now - entry.created_at >= ttl`
(and never true when no ttl is configured). -/
def is_expired {V : Type} (e : CacheEntry V) (ttl : Option Nat) (now : Nat) :
    Bool :=
  match ttl with
  | none => false
  | some t => t ≤ now - e.created_at

/-- Modelled from the spec: the per-cache-instance configuration (§3,
`CacheConfig`), restricted to the fields the engine claims exercise. -/
structure CacheConfig where
  max_entries : Option Nat
  ttl : Option Nat
  persist : Bool
  deriving DecidableEq

/-- Modelled from the spec: the engine state — the in-memory Store, the
Persistence Layer's mirror (§4.4), and a count of executions of the wrapped
computation (instrumentation for the memoization claims). -/
structure EngineState (V : Type) where
  store : Store V
  persisted : Store V
  runCount : Nat
  deriving DecidableEq

/-- The engine state of a freshly constructed cache instance. -/
def emptyState (V : Type) : EngineState V := ⟨[], [], 0⟩

/-- Modelled from the spec: on an in-memory miss, the Persistence Layer is
consulted when `persist = true` (§4.4); a non-expired hit there — judged by
its originally recorded `created_at` — is promoted back into the in-memory
Store under the same eviction policy and returned; an expired persisted
entry is not served. -/
def persistProbe {V : Type} (cfg : CacheConfig) (key : Nat) (now : Nat)
    (st : EngineState V) : Option V × EngineState V :=
  if cfg.persist then
    match lookup key st.persisted with
    | some e =>
        if is_expired e cfg.ttl now then (none, st)
        else (some e.value,
              { st with store := putEntry cfg.max_entries e st.store })
    | none => (none, st)
  else (none, st)

/-- Modelled from the spec: `get` (§4.2-§4.4).  Probe the in-memory Store;
a non-expired hit refreshes `last_touch` and returns the value; an expired
entry is eagerly removed and treated as a miss; on a miss the Persistence
Layer is consulted before recomputation. -/
def get {V : Type} (cfg : CacheConfig) (key : Nat) (now : Nat)
    (st : EngineState V) : Option V × EngineState V :=
  match lookup key st.store with
  | some e =>
      if is_expired e cfg.ttl now then
        persistProbe cfg key now { st with store := removeKey key st.store }
      else
        (some e.value, { st with store := touch key now st.store })
  | none => persistProbe cfg key now st

/-- Modelled from the spec: one invocation of a cached callable `f` at
argument `x` (§2 control flow).  The CallKey of a fixed callable is derived
deterministically from the argument; for a single callable the argument
token itself serves as the key.  On a hit the stored value is returned; on a
miss `f` runs (counted in `runCount`), the result is written into the Store
(and mirrored to the Persistence Layer when `persist = true`), then
returned. -/
def cachedCall {V : Type} (cfg : CacheConfig) (f : Nat → V) (x : Nat)
    (now : Nat) (st : EngineState V) : V × EngineState V :=
  match get cfg x now st with
  | (some v, st') => (v, st')
  | (none, st') =>
      let v := f x
      (v,
       { store := put cfg.max_entries x v now st'.store
         persisted :=
           if cfg.persist then put none x v now st'.persisted
           else st'.persisted
         runCount := st'.runCount + 1 })

/-- Apply a sequence of `get` probes — pairs of (key, time) — to an engine
state, discarding the returned values. -/
def applyGets {V : Type} (cfg : CacheConfig) (accs : List (Nat × Nat))
    (st : EngineState V) : EngineState V :=
  accs.foldl (fun s a => (get cfg a.1 a.2 s).2) st

/-- The configuration of a plain memoizing cache: unbounded, no ttl, no
persistence. -/
def memoCfg : CacheConfig := ⟨none, none, false⟩

/-- The configuration exercising FIFO eviction with `max_entries = 2`. -/
def fifoCfg : CacheConfig := ⟨some 2, none, false⟩

lemma lookup_eq_none_iff {V : Type} (k : Nat) (s : Store V) :
    lookup k s = none ↔ k ∉ s.map CacheEntry.key := by
  simp [lookup, List.find?_eq_none, List.mem_map]

lemma lookup_isSome_iff {V : Type} (k : Nat) (s : Store V) :
    (lookup k s).isSome = true ↔ k ∈ s.map CacheEntry.key := by
  rw [Option.isSome_iff_ne_none, ne_eq, not_iff_comm, lookup_eq_none_iff]

/-- C4: memoization — calling a pure cached callable twice with equal
arguments runs the underlying computation exactly once: the first call
executes `f`, the second call returns the previously computed result without
re-running `f` (the run count stays 1), and a subsequent call with a
different argument runs `f` again. -/
theorem memoization {V : Type} (f : Nat → V) (x y t₀ t₁ t₂ : Nat)
    (hxy : x ≠ y) :
    (cachedCall memoCfg f x t₀ (emptyState V)).1 = f x ∧
    (cachedCall memoCfg f x t₀ (emptyState V)).2.runCount = 1 ∧
    (cachedCall memoCfg f x t₁
        (cachedCall memoCfg f x t₀ (emptyState V)).2).1 = f x ∧
    (cachedCall memoCfg f x t₁
        (cachedCall memoCfg f x t₀ (emptyState V)).2).2.runCount = 1 ∧
    (cachedCall memoCfg f y t₂
        (cachedCall memoCfg f x t₁
          (cachedCall memoCfg f x t₀ (emptyState V)).2).2).2.runCount = 2 := by
  simp [cachedCall, get, lookup, persistProbe, memoCfg, emptyState, put,
    putEntry, removeKey, touch, is_expired, hxy]

lemma touch_map_key {V : Type} (k t : Nat) (s : Store V) :
    (touch k t s).map CacheEntry.key = s.map CacheEntry.key := by
  induction s with
  | nil => rfl
  | cons e s ih =>
      simp only [touch, List.map_cons] at ih ⊢
      rw [ih]
      by_cases h : e.key == k <;> simp [h]

lemma get_fifo_map_key {V : Type} (k t : Nat) (st : EngineState V) :
    ((get fifoCfg k t st).2).store.map CacheEntry.key =
      st.store.map CacheEntry.key := by
  unfold get
  cases h : lookup k st.store with
  | none => simp [persistProbe, fifoCfg]
  | some e => simp [is_expired, fifoCfg, touch_map_key]

lemma applyGets_fifo_map_key {V : Type} (accs : List (Nat × Nat))
    (st : EngineState V) :
    (applyGets fifoCfg accs st).store.map CacheEntry.key =
      st.store.map CacheEntry.key := by
  induction accs generalizing st with
  | nil => rfl
  | cons a accs ih =>
      simp only [applyGets, List.foldl_cons] at ih ⊢
      rw [ih, get_fifo_map_key]

/-- C5: FIFO eviction — with `max_entries = 2`, `put` of a third new key on
the full store removes the oldest-inserted entry; inserting keys K₁, K₂, K₃
in order leaves exactly K₂ and K₃ present and K₁ absent, and this remains
true after any pattern of `get` accesses. -/
theorem fifo_eviction {V : Type} (K₁ K₂ K₃ : Nat) (v₁ v₂ v₃ : V)
    (t₁ t₂ t₃ : Nat) (h12 : K₁ ≠ K₂) (h13 : K₁ ≠ K₃) (h23 : K₂ ≠ K₃)
    (accs : List (Nat × Nat)) :
    (applyGets fifoCfg accs
        ⟨put (some 2) K₃ v₃ t₃ (put (some 2) K₂ v₂ t₂
          (put (some 2) K₁ v₁ t₁ ([] : Store V))), [], 0⟩).store.map
        CacheEntry.key = [K₂, K₃] ∧
    lookup K₁ (applyGets fifoCfg accs
        ⟨put (some 2) K₃ v₃ t₃ (put (some 2) K₂ v₂ t₂
          (put (some 2) K₁ v₁ t₁ ([] : Store V))), [], 0⟩).store = none ∧
    (lookup K₂ (applyGets fifoCfg accs
        ⟨put (some 2) K₃ v₃ t₃ (put (some 2) K₂ v₂ t₂
          (put (some 2) K₁ v₁ t₁ ([] : Store V))), [], 0⟩).store).isSome
        = true ∧
    (lookup K₃ (applyGets fifoCfg accs
        ⟨put (some 2) K₃ v₃ t₃ (put (some 2) K₂ v₂ t₂
          (put (some 2) K₁ v₁ t₁ ([] : Store V))), [], 0⟩).store).isSome
        = true := by
  have hs₃ : (put (some 2) K₃ v₃ t₃ (put (some 2) K₂ v₂ t₂
      (put (some 2) K₁ v₁ t₁ ([] : Store V)))).map CacheEntry.key
      = [K₂, K₃] := by
    simp [put, putEntry, lookup, removeKey, h12, h13, h23, Ne.symm h12,
      Ne.symm h13, Ne.symm h23]
  have hkeys : (applyGets fifoCfg accs
      ⟨put (some 2) K₃ v₃ t₃ (put (some 2) K₂ v₂ t₂
        (put (some 2) K₁ v₁ t₁ ([] : Store V))), [], 0⟩).store.map
      CacheEntry.key = [K₂, K₃] := by
    rw [applyGets_fifo_map_key]
    exact hs₃
  refine ⟨hkeys, ?_, ?_, ?_⟩
  · rw [lookup_eq_none_iff, hkeys]
    simp [h12, h13]
  · rw [lookup_isSome_iff, hkeys]
    simp
  · rw [lookup_isSome_iff, hkeys]
    simp

/-- Witness for C5 at keys 1, 2, 3 and an access pattern probing every key
after the insertions. -/
theorem fifo_eviction_witness :
    (applyGets fifoCfg [(1, 4), (2, 5), (3, 6), (1, 7)]
        ⟨put (some 2) 3 (30 : Nat) 3 (put (some 2) 2 (20 : Nat) 2
          (put (some 2) 1 (10 : Nat) 1 ([] : Store Nat))), [], 0⟩).store.map
        CacheEntry.key = [2, 3] ∧
    lookup 1 (applyGets fifoCfg [(1, 4), (2, 5), (3, 6), (1, 7)]
        ⟨put (some 2) 3 (30 : Nat) 3 (put (some 2) 2 (20 : Nat) 2
          (put (some 2) 1 (10 : Nat) 1 ([] : Store Nat))), [], 0⟩).store
        = none ∧
    (lookup 2 (applyGets fifoCfg [(1, 4), (2, 5), (3, 6), (1, 7)]
        ⟨put (some 2) 3 (30 : Nat) 3 (put (some 2) 2 (20 : Nat) 2
          (put (some 2) 1 (10 : Nat) 1 ([] : Store Nat))), [], 0⟩).store).isSome
        = true ∧
    (lookup 3 (applyGets fifoCfg [(1, 4), (2, 5), (3, 6), (1, 7)]
        ⟨put (some 2) 3 (30 : Nat) 3 (put (some 2) 2 (20 : Nat) 2
          (put (some 2) 1 (10 : Nat) 1 ([] : Store Nat))), [], 0⟩).store).isSome
        = true :=
  fifo_eviction 1 2 3 10 20 30 1 2 3 (by decide) (by decide) (by decide)
    [(1, 4), (2, 5), (3, 6), (1, 7)]

lemma lookup_removeKey {V : Type} (k : Nat) (s : Store V) :
    lookup k (removeKey k s) = none := by
  rw [lookup_eq_none_iff]
  simp [removeKey, List.mem_map, List.mem_filter]

lemma persistProbe_expired {V : Type} (cfg : CacheConfig) (t key now : Nat)
    (st : EngineState V) (httl : cfg.ttl = some t)
    (hper : ∀ e ∈ st.persisted, e.key = key → e.created_at + t ≤ now) :
    persistProbe cfg key now st = (none, st) := by
  unfold persistProbe
  cases hp : cfg.persist with
  | false => simp
  | true =>
      cases hl : lookup key st.persisted with
      | none => simp [hl]
      | some e =>
          have hm : e ∈ st.persisted := List.mem_of_find?_eq_some hl
          have hk : e.key = key := by simpa using List.find?_some hl
          have hage := hper e hm hk
          have hexp : is_expired e cfg.ttl now = true := by
            simp only [is_expired, httl, decide_eq_true_eq]
            omega
          simp [hl, hexp]

/-- C6: TTL expiry — with `ttl` set, an entry whose age is at least `ttl`
(judged by its recorded `created_at`, whether it sits in the in-memory Store
or in the Persistence Layer) is never returned as a hit: `get` misses, the
expired in-memory entry is eagerly removed, no computation is charged to the
probe, and a cached call at that key re-runs the computation and returns its
fresh result. -/
theorem ttl_expiry {V : Type} (cfg : CacheConfig) (t key now : Nat)
    (f : Nat → V) (st : EngineState V)
    (httl : cfg.ttl = some t)
    (hmem : ∀ e ∈ st.store, e.key = key → e.created_at + t ≤ now)
    (hper : ∀ e ∈ st.persisted, e.key = key → e.created_at + t ≤ now) :
    (get cfg key now st).1 = none ∧
    lookup key ((get cfg key now st).2).store = none ∧
    ((get cfg key now st).2).runCount = st.runCount ∧
    (cachedCall cfg f key now st).1 = f key ∧
    (cachedCall cfg f key now st).2.runCount = st.runCount + 1 := by
  have key_facts :
      get cfg key now st = (none, (get cfg key now st).2) ∧
      lookup key ((get cfg key now st).2).store = none ∧
      ((get cfg key now st).2).runCount = st.runCount := by
    unfold get
    cases hl : lookup key st.store with
    | none =>
        rw [persistProbe_expired cfg t key now st httl hper]
        exact ⟨rfl, hl, rfl⟩
    | some e =>
        have hm : e ∈ st.store := List.mem_of_find?_eq_some hl
        have hk : e.key = key := by simpa using List.find?_some hl
        have hage := hmem e hm hk
        have hexp : is_expired e cfg.ttl now = true := by
          simp only [is_expired, httl, decide_eq_true_eq]
          omega
        simp only [hexp, if_true]
        rw [persistProbe_expired cfg t key now
          ⟨removeKey key st.store, st.persisted, st.runCount⟩ httl hper]
        exact ⟨rfl, lookup_removeKey key st.store, rfl⟩
  obtain ⟨hpair, hlook, hrc⟩ := key_facts
  refine ⟨?_, hlook, hrc, ?_, ?_⟩
  · rw [hpair]
  · unfold cachedCall
    rw [hpair]
  · unfold cachedCall
    rw [hpair]
    simpa using hrc

/-- A concrete configuration with `ttl = 5` and persistence enabled. -/
def ttlCfg : CacheConfig := ⟨none, some 5, true⟩

/-- A concrete engine state holding, at key 1, an expired in-memory entry
and an expired persisted entry. -/
def ttlState : EngineState Nat := ⟨[⟨1, 10, 0, 0⟩], [⟨1, 20, 2, 2⟩], 0⟩

/-- Witness for C6 at key 1 and time 7, where both the in-memory and the
persisted entry for key 1 are at least 5 time units old. -/
theorem ttl_expiry_witness :
    (get ttlCfg 1 7 ttlState).1 = none ∧
    lookup 1 ((get ttlCfg 1 7 ttlState).2).store = none ∧
    ((get ttlCfg 1 7 ttlState).2).runCount = ttlState.runCount ∧
    (cachedCall ttlCfg (fun n => n * 2) 1 7 ttlState).1 =
      (fun n => n * 2) 1 ∧
    (cachedCall ttlCfg (fun n => n * 2) 1 7 ttlState).2.runCount =
      ttlState.runCount + 1 :=
  ttl_expiry ttlCfg 5 1 7 (fun n => n * 2) ttlState rfl (by decide) (by decide)

/-- Modelled from the spec: the single-flight discipline of §5 — a per-key
mechanism through which concurrent callers of one CallKey are serialized:
the state of one CallKey's in-flight computation.  `cached` is the store
slot for the key, `inFlight` records whether a computation is running,
`waiters` the callers blocked on it (including the one computing),
`runCount` the number of executions of the wrapped computation, and
`delivered` the results handed to callers, in order. -/
structure SfState (V : Type) where
  cached : Option V
  inFlight : Bool
  waiters : List Nat
  runCount : Nat
  delivered : List (Nat × Except String V)

/-- An observable event at one CallKey: a caller arrives, or the in-flight
computation completes. -/
inductive SfEvent where
  | arrive (c : Nat)
  | complete
  deriving DecidableEq

/-- The state of a key nobody has computed yet. -/
def sfInit (V : Type) : SfState V := ⟨none, false, [], 0, []⟩

/-- Modelled from the spec: one transition of the single-flight mechanism
(§5).  An arriving caller that hits the cache is answered immediately; on a
miss it joins the waiters of the in-flight computation, starting one if none
is running.  When the computation completes with `result`, it is counted as
one execution, every waiter receives that same result, and the value is
stored on success while a failure leaves the cache slot unchanged (§7, a
failure is never cached). -/
def sfStep {V : Type} (result : Except String V) (st : SfState V) :
    SfEvent → SfState V
  | SfEvent.arrive c =>
      match st.cached with
      | some v => { st with delivered := st.delivered ++ [(c, Except.ok v)] }
      | none =>
          if st.inFlight then { st with waiters := st.waiters ++ [c] }
          else { st with inFlight := true, waiters := [c] }
  | SfEvent.complete =>
      if st.inFlight then
        { cached :=
            match result with
            | Except.ok v => some v
            | Except.error _ => st.cached
          inFlight := false
          waiters := []
          runCount := st.runCount + 1
          delivered := st.delivered ++ st.waiters.map (fun c => (c, result)) }
      else st

/-- Run a sequence of single-flight events from the initial state. -/
def sfRun {V : Type} (result : Except String V) (evs : List SfEvent) :
    SfState V :=
  evs.foldl (sfStep result) (sfInit V)

lemma sfSteps_arrivals {V : Type} (result : Except String V) (cs w : List Nat)
    (n : Nat) (d : List (Nat × Except String V)) :
    (cs.map SfEvent.arrive).foldl (sfStep result) ⟨none, true, w, n, d⟩ =
      ⟨none, true, w ++ cs, n, d⟩ := by
  induction cs generalizing w with
  | nil => simp
  | cons c cs ih =>
      have h1 : sfStep result ⟨none, true, w, n, d⟩ (SfEvent.arrive c) =
          ⟨none, true, w ++ [c], n, d⟩ := by
        simp [sfStep]
      simp only [List.map_cons, List.foldl_cons, h1]
      rw [ih]
      simp

lemma sfRun_miss_then_complete {V : Type} (result : Except String V)
    (c : Nat) (cs : List Nat) :
    sfRun result ((c :: cs).map SfEvent.arrive ++ [SfEvent.complete]) =
      ⟨(match result with
         | Except.ok v => some v
         | Except.error _ => none),
        false, [], 1, (c :: cs).map (fun x => (x, result))⟩ := by
  unfold sfRun
  rw [List.foldl_append]
  simp only [List.map_cons, List.foldl_cons]
  have h0 : sfStep result (sfInit V) (SfEvent.arrive c) =
      ⟨none, true, [c], 0, []⟩ := by
    simp [sfStep, sfInit]
  rw [h0, sfSteps_arrivals]
  simp [sfStep]

/-- C7: single-flight — when N ≥ 1 callers all arrive at the same CallKey
before any computation has completed (so each of them misses), the wrapped
computation executes exactly once and every caller is delivered that single
computation's result, so all callers receive an equal result (on failure,
the same failure). -/
theorem single_flight {V : Type} (result : Except String V) (cs : List Nat)
    (h : cs ≠ []) :
    (sfRun result (cs.map SfEvent.arrive ++ [SfEvent.complete])).runCount
        = 1 ∧
    (sfRun result (cs.map SfEvent.arrive ++ [SfEvent.complete])).delivered
        = cs.map (fun x => (x, result)) := by
  obtain ⟨c, cs', rfl⟩ := List.exists_cons_of_ne_nil h
  rw [sfRun_miss_then_complete]
  exact ⟨rfl, rfl⟩

/-- Witness for C7 with three callers and a successful computation. -/
theorem single_flight_witness :
    (sfRun (Except.ok (42 : Nat))
        ([5, 8, 13].map SfEvent.arrive ++ [SfEvent.complete])).runCount = 1 ∧
    (sfRun (Except.ok (42 : Nat))
        ([5, 8, 13].map SfEvent.arrive ++ [SfEvent.complete])).delivered =
      [5, 8, 13].map (fun x => (x, Except.ok 42)) :=
  single_flight (Except.ok 42) [5, 8, 13] (by decide)

/-- C8: a failure is never cached — when the wrapped computation fails, the
error is propagated verbatim and identically to every caller waiting on the
in-flight computation, the failing attempt is the only execution, and the
cache slot for the key is left unchanged: no entry is created. -/
theorem failure_never_cached {V : Type} (err : String) (cs : List Nat)
    (h : cs ≠ []) :
    (sfRun (Except.error err : Except String V)
        (cs.map SfEvent.arrive ++ [SfEvent.complete])).cached = none ∧
    (sfRun (Except.error err : Except String V)
        (cs.map SfEvent.arrive ++ [SfEvent.complete])).runCount = 1 ∧
    (sfRun (Except.error err : Except String V)
        (cs.map SfEvent.arrive ++ [SfEvent.complete])).delivered =
      cs.map (fun x => (x, Except.error err)) := by
  obtain ⟨c, cs', rfl⟩ := List.exists_cons_of_ne_nil h
  rw [sfRun_miss_then_complete]
  exact ⟨rfl, rfl, rfl⟩

/-- Witness for C8 with two callers and a failing computation. -/
theorem failure_never_cached_witness :
    (sfRun (Except.error "boom" : Except String Nat)
        ([4, 9].map SfEvent.arrive ++ [SfEvent.complete])).cached = none ∧
    (sfRun (Except.error "boom" : Except String Nat)
        ([4, 9].map SfEvent.arrive ++ [SfEvent.complete])).runCount = 1 ∧
    (sfRun (Except.error "boom" : Except String Nat)
        ([4, 9].map SfEvent.arrive ++ [SfEvent.complete])).delivered =
      [4, 9].map (fun x => (x, Except.error "boom")) :=
  failure_never_cached "boom" [4, 9] (by decide)

/-- Witness for C4 at `f := fun n => n + 1`, `x := 0`, `y := 1`. -/
theorem memoization_witness :
    (cachedCall memoCfg (fun n => n + 1) 0 0 (emptyState Nat)).1 =
      (fun n => n + 1) 0 ∧
    (cachedCall memoCfg (fun n => n + 1) 0 0 (emptyState Nat)).2.runCount
      = 1 ∧
    (cachedCall memoCfg (fun n => n + 1) 0 1
        (cachedCall memoCfg (fun n => n + 1) 0 0 (emptyState Nat)).2).1 =
      (fun n => n + 1) 0 ∧
    (cachedCall memoCfg (fun n => n + 1) 0 1
        (cachedCall memoCfg (fun n => n + 1) 0 0
          (emptyState Nat)).2).2.runCount = 1 ∧
    (cachedCall memoCfg (fun n => n + 1) 1 2
        (cachedCall memoCfg (fun n => n + 1) 0 1
          (cachedCall memoCfg (fun n => n + 1) 0 0
            (emptyState Nat)).2).2).2.runCount = 2 :=
  memoization (fun n => n + 1) 0 1 0 1 2 (by decide)

end CacheEngine
